import Mathlib

/-
Verification of the falling-sand simulation core (src/src/App.tsx).

The lattice is the flat `GridCell` array of length `N * N` indexed by
`row * N + col` (the source fixes `N = GRID_SIZE = 128`; the spec treats the
side length as a construction parameter, so the lattice operations below take
`N` as an argument and the app-level constants are kept separately).
Cell states follow the source: `0` = Empty, `1` = Falling (orange),
`2` = Rising (blue).  JavaScript numbers in the particle subsystem are
modelled as rationals, keeping the exact arithmetic structure of the source
expressions.
-/

structure GridCell where
  state : Nat
  color : String
deriving DecidableEq

def emptyCell : GridCell := ⟨0, ""⟩

/-- One iteration of the inner loop of the falling pass
(`App.tsx` lines 381-393): conditions are read from the snapshot `prev`,
writes go to the accumulator `g`. -/
def fallStep (N : Nat) (prev : List GridCell) (row col : Nat) (g : List GridCell) : List GridCell :=
  let currentIndex := row * N + col
  let aboveIndex := (row - 1) * N + col
  if (prev.getD aboveIndex emptyCell).state = 1 ∧ (prev.getD currentIndex emptyCell).state = 0 then
    (g.set currentIndex (prev.getD aboveIndex emptyCell)).set aboveIndex emptyCell
  else g

/-- Row order of the falling pass: `N-1, N-2, ..., 1` (the source loop
`for (row = GRID_SIZE - 1; row > 0; row--)`). -/
def rowsDown (N : Nat) : List Nat := ((List.range (N - 1)).map (fun k => k + 1)).reverse

/-- The falling pass: move state-1 occupants down one row where the cell
below them was Empty in the snapshot `prev`. -/
def fallingPass (N : Nat) (prev g : List GridCell) : List GridCell :=
  (rowsDown N).foldl (fun acc row => (List.range N).foldl (fun a col => fallStep N prev row col a) acc) g

/-- One iteration of the inner loop of the rising pass
(`App.tsx` lines 394-407). -/
def riseStep (N : Nat) (prev : List GridCell) (row col : Nat) (g : List GridCell) : List GridCell :=
  let currentIndex := row * N + col
  let belowIndex := (row + 1) * N + col
  if (prev.getD belowIndex emptyCell).state = 2 ∧ (prev.getD currentIndex emptyCell).state = 0 then
    (g.set currentIndex (prev.getD belowIndex emptyCell)).set belowIndex emptyCell
  else g

/-- Row order of the rising pass: `0, 1, ..., N-2` (the source loop
`for (row = 0; row < GRID_SIZE - 1; row++)`). -/
def rowsUp (N : Nat) : List Nat := List.range (N - 1)

/-- The rising pass: move state-2 occupants up one row where the cell above
them was Empty in the snapshot `prev`. -/
def risingPass (N : Nat) (prev g : List GridCell) : List GridCell :=
  (rowsUp N).foldl (fun acc row => (List.range N).foldl (fun a col => riseStep N prev row col a) acc) g

/-- One lattice tick (`App.tsx` lines 378-409): the falling pass then the
rising pass, both conditioned on the same previous-state snapshot, writing
into one copy of the grid. -/
def tickGrid (N : Nat) (prev : List GridCell) : List GridCell :=
  risingPass N prev (fallingPass N prev prev)

/-- Number of occupied lattice cells (cells whose material is not Empty). -/
def countOcc (g : List GridCell) : Nat := g.countP (fun c => c.state != 0)

/-- Apply a list of indexed writes, left to right. -/
def applyWrites (g : List GridCell) (ws : List (Nat × GridCell)) : List GridCell :=
  ws.foldl (fun a p => a.set p.1 p.2) g

/-- The writes performed by `fallStep N prev row col`. -/
def fallWrites (N : Nat) (prev : List GridCell) (row col : Nat) : List (Nat × GridCell) :=
  if (prev.getD ((row - 1) * N + col) emptyCell).state = 1 ∧
      (prev.getD (row * N + col) emptyCell).state = 0 then
    [(row * N + col, prev.getD ((row - 1) * N + col) emptyCell), ((row - 1) * N + col, emptyCell)]
  else []

/-- The writes performed by `riseStep N prev row col`. -/
def riseWrites (N : Nat) (prev : List GridCell) (row col : Nat) : List (Nat × GridCell) :=
  if (prev.getD ((row + 1) * N + col) emptyCell).state = 2 ∧
      (prev.getD (row * N + col) emptyCell).state = 0 then
    [(row * N + col, prev.getD ((row + 1) * N + col) emptyCell), ((row + 1) * N + col, emptyCell)]
  else []

/-- The (row, col) iteration sequence of the falling pass. -/
def stepsDown (N : Nat) : List (Nat × Nat) :=
  (rowsDown N).flatMap (fun row => (List.range N).map (fun col => (row, col)))

/-- The (row, col) iteration sequence of the rising pass. -/
def stepsUp (N : Nat) : List (Nat × Nat) :=
  (rowsUp N).flatMap (fun row => (List.range N).map (fun col => (row, col)))

/-- Cell `i` is a destination of the falling rule: its row is not the top
row, the cell above holds Falling matter and cell `i` is Empty (all in the
snapshot `g`). -/
def fallInto (N : Nat) (g : List GridCell) (i : Nat) : Prop :=
  N ≤ i ∧ (g.getD (i - N) emptyCell).state = 1 ∧ (g.getD i emptyCell).state = 0

/-- Cell `i` is a source of the falling rule: its row is not the bottom row,
it holds Falling matter and the cell below it is Empty (in the snapshot `g`). -/
def fallFrom (N : Nat) (g : List GridCell) (i : Nat) : Prop :=
  i + N < N * N ∧ (g.getD i emptyCell).state = 1 ∧ (g.getD (i + N) emptyCell).state = 0

/-- Cell `i` is a destination of the rising rule. -/
def riseInto (N : Nat) (g : List GridCell) (i : Nat) : Prop :=
  i + N < N * N ∧ (g.getD (i + N) emptyCell).state = 2 ∧ (g.getD i emptyCell).state = 0

/-- Cell `i` is a source of the rising rule. -/
def riseFrom (N : Nat) (g : List GridCell) (i : Nat) : Prop :=
  N ≤ i ∧ (g.getD i emptyCell).state = 2 ∧ (g.getD (i - N) emptyCell).state = 0

instance (N : Nat) (g : List GridCell) (i : Nat) : Decidable (fallInto N g i) := by
  unfold fallInto; infer_instance

instance (N : Nat) (g : List GridCell) (i : Nat) : Decidable (fallFrom N g i) := by
  unfold fallFrom; infer_instance

instance (N : Nat) (g : List GridCell) (i : Nat) : Decidable (riseInto N g i) := by
  unfold riseInto; infer_instance

instance (N : Nat) (g : List GridCell) (i : Nat) : Decidable (riseFrom N g i) := by
  unfold riseFrom; infer_instance

/-- Cell `i` is written as newly occupied by the falling pass run over the
snapshot `g`. -/
def fallDest (N : Nat) (g : List GridCell) (i : Nat) : Prop :=
  (g.getD i emptyCell).state = 0 ∧ ((fallingPass N g g).getD i emptyCell).state ≠ 0

/-- Cell `i` is written as newly occupied by the rising pass run over the
snapshot `g`. -/
def riseDest (N : Nat) (g : List GridCell) (i : Nat) : Prop :=
  (g.getD i emptyCell).state = 0 ∧ ((risingPass N g g).getD i emptyCell).state ≠ 0

instance (N : Nat) (g : List GridCell) (i : Nat) : Decidable (fallDest N g i) := by
  unfold fallDest; infer_instance

instance (N : Nat) (g : List GridCell) (i : Nat) : Decidable (riseDest N g i) := by
  unfold riseDest; infer_instance

/-- Exchange the Falling and Rising material tags of a cell. -/
def swapCell (c : GridCell) : GridCell :=
  if c.state = 1 then { c with state := 2 }
  else if c.state = 2 then { c with state := 1 }
  else c

/-- Vertical mirror of an `N × N` lattice, exchanging Falling and Rising
material: row `r` is taken from row `N - 1 - r`. -/
def mirrorV (N : Nat) (g : List GridCell) : List GridCell :=
  (List.range (N * N)).map (fun i => swapCell (g.getD ((N - 1 - i / N) * N + i % N) emptyCell))

def GRID_SIZE : Nat := 128

def CANVAS_SIZE : ℚ := 512

def PIXEL_SIZE : ℚ := CANVAS_SIZE / (GRID_SIZE : ℚ)

def GRAVITY : ℚ := 5 / 100

def INITIAL_VELOCITY : ℚ := 1 / 10

structure Particle where
  x : ℚ
  y : ℚ
  vy : ℚ
  isBlue : Bool
  color : String
deriving DecidableEq

/-- Placeholder particle used as the default of out-of-range list reads. -/
def defaultParticle : Particle := ⟨0, 0, 0, false, ""⟩

/-- One tick of the particle subsystem (`App.tsx` lines 411-419): integrate
every particle from its old fields, then drop the ones whose updated `y`
reaches the canvas bound. -/
def stepParticles (ps : List Particle) : List Particle :=
  (ps.map (fun particle =>
    { particle with y := particle.y + particle.vy, vy := particle.vy + GRAVITY })).filter
    (fun particle => particle.y < CANVAS_SIZE)

/-- The particle list built by `initGrid` (`App.tsx` lines 356-372): scan the
grid in linear (row-major) index order and push one particle per occupied
cell. -/
def initGridParticles (gridState : List GridCell) : List Particle :=
  (List.range gridState.length).foldl (fun newParticles i =>
    if (gridState.getD i emptyCell).state ≠ 0 then
      newParticles ++
        [{ x := ((i % GRID_SIZE : Nat) : ℚ) * PIXEL_SIZE,
           y := ((i / GRID_SIZE : Nat) : ℚ) * PIXEL_SIZE,
           vy := if (gridState.getD i emptyCell).state = 2 then -INITIAL_VELOCITY else INITIAL_VELOCITY,
           isBlue := (gridState.getD i emptyCell).state == 2,
           color := (gridState.getD i emptyCell).color }]
    else newParticles) []

structure AppState where
  gridState : List GridCell
  particles : List Particle

/-- The `initGrid` handler (`App.tsx` lines 356-374): convert every occupied
cell into a particle, install that list as the new particle collection, and
replace the grid with a freshly cleared one. -/
def initGrid (s : AppState) : AppState :=
  { gridState := List.replicate (GRID_SIZE * GRID_SIZE) emptyCell,
    particles := initGridParticles s.gridState }

/-- The brush-disc membership test of `activateCell` (`App.tsx` lines
117-122).  The source compares `Math.sqrt(d) <= radius` with
`radius = brushSize / 2`; over the nonnegative reals this is equivalent to
`d <= radius ^ 2`, which is the form used here so the test stays within `ℚ`. -/
def inBrushDisc (brushSize i j : Nat) : Prop :=
  ((i : ℚ) - (brushSize : ℚ) / 2 + 1 / 2) ^ 2 + ((j : ℚ) - (brushSize : ℚ) / 2 + 1 / 2) ^ 2
    ≤ ((brushSize : ℚ) / 2) ^ 2

instance (brushSize i j : Nat) : Decidable (inBrushDisc brushSize i j) := by
  unfold inBrushDisc; infer_instance

/-- The cell value stamped by `activateCell`. -/
def stampCell (isBlueMode : Bool) (fallingColor risingColor : String) : GridCell :=
  ⟨if isBlueMode then 2 else 1, if isBlueMode then risingColor else fallingColor⟩

/-- The brush stamp of `activateCell` (`App.tsx` lines 98-142), starting from
the already-computed lattice center `(centerRow, centerCol)` (the source
derives it from pointer coordinates, which the spec assigns to the input
translation collaborator).  For every offset `(i, j)` of the `brushSize ×
brushSize` bounding box, the target cell is overwritten when the offset lies
in the brush disc and the target coordinates lie inside `[0, N)`; all other
offsets are skipped. -/
def activateCell (N : Nat) (isBlueMode : Bool) (fallingColor risingColor : String)
    (brushSize : Nat) (centerRow centerCol : Int) (g : List GridCell) : List GridCell :=
  (List.range brushSize).foldl (fun acc (i : Nat) =>
    (List.range brushSize).foldl (fun a (j : Nat) =>
      if inBrushDisc brushSize i j
          ∧ 0 ≤ centerRow - ((brushSize / 2 : Nat) : Int) + (i : Int)
          ∧ centerRow - ((brushSize / 2 : Nat) : Int) + (i : Int) < N
          ∧ 0 ≤ centerCol - ((brushSize / 2 : Nat) : Int) + (j : Int)
          ∧ centerCol - ((brushSize / 2 : Nat) : Int) + (j : Int) < N then
        a.set ((centerRow - ((brushSize / 2 : Nat) : Int) + (i : Int)) * N
            + (centerCol - ((brushSize / 2 : Nat) : Int) + (j : Int))).toNat
          (stampCell isBlueMode fallingColor risingColor)
      else a) acc) g

/-- The write list of one brush-stamp loop iteration. -/
def stampWrites (N : Nat) (isBlueMode : Bool) (fallingColor risingColor : String)
    (brushSize : Nat) (centerRow centerCol : Int) (i j : Nat) : List (Nat × GridCell) :=
  if inBrushDisc brushSize i j
      ∧ 0 ≤ centerRow - ((brushSize / 2 : Nat) : Int) + (i : Int)
      ∧ centerRow - ((brushSize / 2 : Nat) : Int) + (i : Int) < N
      ∧ 0 ≤ centerCol - ((brushSize / 2 : Nat) : Int) + (j : Int)
      ∧ centerCol - ((brushSize / 2 : Nat) : Int) + (j : Int) < N then
    [(((centerRow - ((brushSize / 2 : Nat) : Int) + (i : Int)) * N
        + (centerCol - ((brushSize / 2 : Nat) : Int) + (j : Int))).toNat,
      stampCell isBlueMode fallingColor risingColor)]
  else []

/-- The (i, j) iteration sequence of the brush-stamp loops. -/
def stepsBrush (brushSize : Nat) : List (Nat × Nat) :=
  (List.range brushSize).flatMap (fun i => (List.range brushSize).map (fun j => (i, j)))

theorem getD_set_self (g : List GridCell) (i : Nat) (v : GridCell) (h : i < g.length) :
    (g.set i v).getD i emptyCell = v := by
  simp [List.getD_eq_getElem?_getD, List.getElem?_set_eq_of_lt v h]

theorem getD_set_ne (g : List GridCell) {i j : Nat} (v : GridCell) (h : i ≠ j) :
    (g.set i v).getD j emptyCell = g.getD j emptyCell := by
  simp [List.getD_eq_getElem?_getD, List.getElem?_set_ne h]

theorem getD_of_length_le (g : List GridCell) (i : Nat) (h : g.length ≤ i) :
    g.getD i emptyCell = emptyCell := by
  simp [List.getD_eq_getElem?_getD, List.getElem?_eq_none h]

theorem applyWrites_nil (g : List GridCell) : applyWrites g [] = g := rfl

theorem applyWrites_cons (g : List GridCell) (p : Nat × GridCell) (ws : List (Nat × GridCell)) :
    applyWrites g (p :: ws) = applyWrites (g.set p.1 p.2) ws := rfl

theorem applyWrites_append (g : List GridCell) (ws1 ws2 : List (Nat × GridCell)) :
    applyWrites g (ws1 ++ ws2) = applyWrites (applyWrites g ws1) ws2 :=
  List.foldl_append _ _ _ _

theorem applyWrites_length (g : List GridCell) (ws : List (Nat × GridCell)) :
    (applyWrites g ws).length = g.length := by
  induction ws generalizing g with
  | nil => rfl
  | cons p ws ih => rw [applyWrites_cons, ih]; simp

theorem applyWrites_getD_of_not_mem (ws : List (Nat × GridCell)) (g : List GridCell) (i : Nat)
    (h : ∀ p ∈ ws, p.1 ≠ i) :
    (applyWrites g ws).getD i emptyCell = g.getD i emptyCell := by
  induction ws generalizing g with
  | nil => rfl
  | cons p ws ih =>
      rw [applyWrites_cons, ih _ (fun q hq => h q (List.mem_cons_of_mem p hq)),
        getD_set_ne _ _ (h p (List.mem_cons_self p ws))]

theorem applyWrites_getD_of_mem (ws : List (Nat × GridCell)) (g : List GridCell) (i : Nat)
    (v : GridCell) (hi : i < g.length) (hmem : (i, v) ∈ ws)
    (huniq : ∀ p ∈ ws, p.1 = i → p.2 = v) :
    (applyWrites g ws).getD i emptyCell = v := by
  induction ws generalizing g with
  | nil => cases hmem
  | cons p ws ih =>
      rw [applyWrites_cons]
      by_cases hrest : ∃ q ∈ ws, q.1 = i
      · obtain ⟨q, hq, hq1⟩ := hrest
        have hq2 : q.2 = v := huniq q (List.mem_cons_of_mem p hq) hq1
        have hqv : (i, v) ∈ ws := by
          have : q = (i, v) := Prod.ext hq1 hq2
          exact this ▸ hq
        exact ih _ (by simpa using hi) hqv (fun q hq => huniq q (List.mem_cons_of_mem p hq))
      · push_neg at hrest
        have hp : p = (i, v) := by
          rcases List.mem_cons.mp hmem with h | h
          · exact h.symm
          · exact absurd rfl (hrest _ h)
        subst hp
        rw [applyWrites_getD_of_not_mem ws _ i (fun q hq => hrest q hq)]
        exact getD_set_self _ _ _ hi

theorem foldl_applyWrites {α : Type} (w : α → List (Nat × GridCell)) (L : List α)
    (g : List GridCell) :
    L.foldl (fun a s => applyWrites a (w s)) g = applyWrites g (L.flatMap w) := by
  induction L generalizing g with
  | nil => rfl
  | cons s L ih => rw [List.foldl_cons, List.flatMap_cons, applyWrites_append, ih]

theorem fallStep_eq (N : Nat) (prev : List GridCell) (row col : Nat) (g : List GridCell) :
    fallStep N prev row col g = applyWrites g (fallWrites N prev row col) := by
  unfold fallStep fallWrites
  by_cases h : (prev.getD ((row - 1) * N + col) emptyCell).state = 1 ∧
      (prev.getD (row * N + col) emptyCell).state = 0
  · rw [if_pos h, if_pos h]; rfl
  · rw [if_neg h, if_neg h]; rfl

theorem riseStep_eq (N : Nat) (prev : List GridCell) (row col : Nat) (g : List GridCell) :
    riseStep N prev row col g = applyWrites g (riseWrites N prev row col) := by
  unfold riseStep riseWrites
  by_cases h : (prev.getD ((row + 1) * N + col) emptyCell).state = 2 ∧
      (prev.getD (row * N + col) emptyCell).state = 0
  · rw [if_pos h, if_pos h]; rfl
  · rw [if_neg h, if_neg h]; rfl

theorem fallingPass_eq_applyWrites (N : Nat) (prev g : List GridCell) :
    fallingPass N prev g
      = applyWrites g ((stepsDown N).flatMap (fun rc => fallWrites N prev rc.1 rc.2)) := by
  unfold fallingPass
  have hrow : ∀ (acc : List GridCell) (row : Nat),
      (List.range N).foldl (fun a col => fallStep N prev row col a) acc
        = applyWrites acc ((List.range N).flatMap (fun col => fallWrites N prev row col)) := by
    intro acc row
    rw [show (fun a col => fallStep N prev row col a)
        = (fun a col => applyWrites a (fallWrites N prev row col)) from
      funext fun a => funext fun col => fallStep_eq N prev row col a]
    exact foldl_applyWrites _ _ _
  rw [show (fun acc row => (List.range N).foldl (fun a col => fallStep N prev row col a) acc)
      = (fun acc row => applyWrites acc ((List.range N).flatMap (fun col => fallWrites N prev row col))) from
    funext fun acc => funext fun row => hrow acc row]
  rw [foldl_applyWrites]
  unfold stepsDown
  rw [List.flatMap_assoc]
  simp only [List.flatMap_map]

theorem risingPass_eq_applyWrites (N : Nat) (prev g : List GridCell) :
    risingPass N prev g
      = applyWrites g ((stepsUp N).flatMap (fun rc => riseWrites N prev rc.1 rc.2)) := by
  unfold risingPass
  have hrow : ∀ (acc : List GridCell) (row : Nat),
      (List.range N).foldl (fun a col => riseStep N prev row col a) acc
        = applyWrites acc ((List.range N).flatMap (fun col => riseWrites N prev row col)) := by
    intro acc row
    rw [show (fun a col => riseStep N prev row col a)
        = (fun a col => applyWrites a (riseWrites N prev row col)) from
      funext fun a => funext fun col => riseStep_eq N prev row col a]
    exact foldl_applyWrites _ _ _
  rw [show (fun acc row => (List.range N).foldl (fun a col => riseStep N prev row col a) acc)
      = (fun acc row => applyWrites acc ((List.range N).flatMap (fun col => riseWrites N prev row col))) from
    funext fun acc => funext fun row => hrow acc row]
  rw [foldl_applyWrites]
  unfold stepsUp
  rw [List.flatMap_assoc]
  simp only [List.flatMap_map]

theorem idx_div (N r c : Nat) (hc : c < N) : (r * N + c) / N = r := by
  have hN : 0 < N := Nat.pos_of_ne_zero (by omega)
  rw [Nat.mul_comm r N, Nat.mul_add_div hN, Nat.div_eq_of_lt hc, Nat.add_zero]

theorem idx_mod (N r c : Nat) (hc : c < N) : (r * N + c) % N = c := by
  rw [Nat.add_comm, Nat.add_mul_mod_self_right, Nat.mod_eq_of_lt hc]

theorem idx_inj (N : Nat) {r c r' c' : Nat} (hc : c < N) (hc' : c' < N)
    (h : r * N + c = r' * N + c') : r = r' ∧ c = c' := by
  constructor
  · rw [← idx_div N r c hc, h, idx_div N r' c' hc']
  · rw [← idx_mod N r c hc, h, idx_mod N r' c' hc']

theorem idx_lt (N : Nat) {r c : Nat} (hr : r < N) (hc : c < N) : r * N + c < N * N :=
  calc r * N + c < r * N + N := by omega
  _ = (r + 1) * N := by ring
  _ ≤ N * N := Nat.mul_le_mul_right N hr

theorem mem_rowsDown (N r : Nat) : r ∈ rowsDown N ↔ 1 ≤ r ∧ r < N := by
  simp only [rowsDown, List.mem_reverse, List.mem_map, List.mem_range]
  constructor
  · rintro ⟨k, hk, rfl⟩; omega
  · rintro ⟨h1, h2⟩; exact ⟨r - 1, by omega, by omega⟩

theorem mem_rowsUp (N r : Nat) : r ∈ rowsUp N ↔ r < N - 1 := by
  simp [rowsUp]

theorem mem_stepsDown (N : Nat) (rc : Nat × Nat) :
    rc ∈ stepsDown N ↔ 1 ≤ rc.1 ∧ rc.1 < N ∧ rc.2 < N := by
  obtain ⟨r, c⟩ := rc
  simp only [stepsDown, List.mem_flatMap, List.mem_map, List.mem_range]
  constructor
  · rintro ⟨row, hrow, col, hcol, h⟩
    obtain ⟨h1, h2⟩ := Prod.mk.injEq _ _ _ _ ▸ h
    rw [mem_rowsDown] at hrow
    cases h
    exact ⟨hrow.1, hrow.2, hcol⟩
  · rintro ⟨h1, h2, h3⟩
    exact ⟨r, (mem_rowsDown N r).mpr ⟨h1, h2⟩, c, h3, rfl⟩

theorem mem_stepsUp (N : Nat) (rc : Nat × Nat) :
    rc ∈ stepsUp N ↔ rc.1 < N - 1 ∧ rc.2 < N := by
  obtain ⟨r, c⟩ := rc
  simp only [stepsUp, List.mem_flatMap, List.mem_map, List.mem_range]
  constructor
  · rintro ⟨row, hrow, col, hcol, h⟩
    rw [mem_rowsUp] at hrow
    cases h
    exact ⟨hrow, hcol⟩
  · rintro ⟨h1, h2⟩
    exact ⟨r, (mem_rowsUp N r).mpr h1, c, h2, rfl⟩

theorem idx_sub (N i : Nat) (hN : 0 < N) (h : N ≤ i) : (i / N - 1) * N + i % N = i - N := by
  have h1 : i / N * N + i % N = i := by rw [Nat.mul_comm]; exact Nat.div_add_mod i N
  have h2 : 1 ≤ i / N := (Nat.one_le_div_iff hN).mpr h
  have h3 : (i / N - 1) * N = i / N * N - N := by rw [Nat.sub_mul, Nat.one_mul]
  have h4 : N ≤ i / N * N := le_trans (by omega) (Nat.mul_le_mul_right N h2)
  omega

theorem idx_add (N i : Nat) : (i / N + 1) * N + i % N = i + N := by
  have h1 : N * (i / N) + i % N = i := Nat.div_add_mod i N
  have h2 : (i / N + 1) * N = i / N * N + N := by rw [Nat.add_mul, Nat.one_mul]
  have h3 : i / N * N = N * (i / N) := Nat.mul_comm _ _
  omega

theorem add_row_lt_iff (N i : Nat) (hN : 0 < N) : i + N < N * N ↔ i / N + 1 < N := by
  have hc : i % N < N := Nat.mod_lt _ hN
  constructor
  · intro h
    have hd := idx_div N (i / N + 1) (i % N) hc
    rw [idx_add] at hd
    rw [← hd]
    exact (Nat.div_lt_iff_lt_mul hN).mpr h
  · intro h
    rw [← idx_add N i]
    exact idx_lt N h hc

theorem fallingPass_getD (N : Nat) (prev g : List GridCell) (hg : g.length = N * N)
    (i : Nat) (hi : i < N * N) :
    (fallingPass N prev g).getD i emptyCell =
      if fallInto N prev i then prev.getD (i - N) emptyCell
      else if fallFrom N prev i then emptyCell
      else g.getD i emptyCell := by
  have hN : 0 < N := by
    rcases Nat.eq_zero_or_pos N with h | h
    · subst h; simp at hi
    · exact h
  have hc : i % N < N := Nat.mod_lt _ hN
  have hrc : i / N * N + i % N = i := by rw [Nat.mul_comm]; exact Nat.div_add_mod i N
  have hr : i / N < N := (Nat.div_lt_iff_lt_mul hN).mpr hi
  rw [fallingPass_eq_applyWrites]
  by_cases h1 : fallInto N prev i
  · rw [if_pos h1]
    obtain ⟨hNi, hup, h0⟩ := h1
    have hr1 : 1 ≤ i / N := (Nat.one_le_div_iff hN).mpr hNi
    have hsub : (i / N - 1) * N + i % N = i - N := idx_sub N i hN hNi
    apply applyWrites_getD_of_mem _ _ _ _ (by rw [hg]; exact hi)
    · refine List.mem_flatMap.mpr ⟨(i / N, i % N), (mem_stepsDown N _).mpr ⟨hr1, hr, hc⟩, ?_⟩
      unfold fallWrites
      simp only
      rw [hsub, hrc, if_pos ⟨hup, h0⟩]
      exact List.mem_cons_self _ _
    · rintro p hp hpi
      obtain ⟨⟨r', c'⟩, hrc', hpw⟩ := List.mem_flatMap.mp hp
      rw [mem_stepsDown] at hrc'
      obtain ⟨ha, hb, hcc⟩ := hrc'
      dsimp only at ha hb hcc
      unfold fallWrites at hpw
      simp only at hpw
      by_cases hcond : (prev.getD ((r' - 1) * N + c') emptyCell).state = 1 ∧
          (prev.getD (r' * N + c') emptyCell).state = 0
      · rw [if_pos hcond] at hpw
        simp only [List.mem_cons, List.not_mem_nil, or_false] at hpw
        rcases hpw with rfl | rfl
        · simp only at hpi ⊢
          obtain ⟨he1, he2⟩ := idx_inj N hcc hc (hpi.trans hrc.symm)
          rw [he1, he2, hsub]
        · simp only at hpi ⊢
          rw [hpi] at hcond
          exact absurd hcond.1 (by rw [h0]; omega)
      · rw [if_neg hcond] at hpw; cases hpw
  · rw [if_neg h1]
    by_cases h2 : fallFrom N prev i
    · rw [if_pos h2]
      obtain ⟨hlt, h1s, h0s⟩ := h2
      have hradd : i / N + 1 < N := (add_row_lt_iff N i hN).mp hlt
      apply applyWrites_getD_of_mem _ _ _ _ (by rw [hg]; exact hi)
      · refine List.mem_flatMap.mpr
          ⟨(i / N + 1, i % N), (mem_stepsDown N _).mpr ⟨Nat.le_add_left 1 (i / N), hradd, hc⟩, ?_⟩
        unfold fallWrites
        simp only [Nat.add_sub_cancel]
        rw [hrc, idx_add, if_pos ⟨h1s, h0s⟩]
        exact List.mem_cons_of_mem _ (List.mem_cons_self _ _)
      · rintro p hp hpi
        obtain ⟨⟨r', c'⟩, hrc', hpw⟩ := List.mem_flatMap.mp hp
        rw [mem_stepsDown] at hrc'
        obtain ⟨ha, hb, hcc⟩ := hrc'
        dsimp only at ha hb hcc
        unfold fallWrites at hpw
        simp only at hpw
        by_cases hcond : (prev.getD ((r' - 1) * N + c') emptyCell).state = 1 ∧
            (prev.getD (r' * N + c') emptyCell).state = 0
        · rw [if_pos hcond] at hpw
          simp only [List.mem_cons, List.not_mem_nil, or_false] at hpw
          rcases hpw with rfl | rfl
          · simp only at hpi ⊢
            rw [hpi] at hcond
            exact absurd hcond.2 (by rw [h1s]; omega)
          · rfl
        · rw [if_neg hcond] at hpw; cases hpw
    · rw [if_neg h2]
      apply applyWrites_getD_of_not_mem
      rintro p hp
      obtain ⟨⟨r', c'⟩, hrc', hpw⟩ := List.mem_flatMap.mp hp
      rw [mem_stepsDown] at hrc'
      obtain ⟨ha, hb, hcc⟩ := hrc'
      dsimp only at ha hb hcc
      unfold fallWrites at hpw
      simp only at hpw
      by_cases hcond : (prev.getD ((r' - 1) * N + c') emptyCell).state = 1 ∧
          (prev.getD (r' * N + c') emptyCell).state = 0
      · rw [if_pos hcond] at hpw
        simp only [List.mem_cons, List.not_mem_nil, or_false] at hpw
        rcases hpw with rfl | rfl
        · simp only
          intro hpi
          obtain ⟨he1, he2⟩ := idx_inj N hcc hc (hpi.trans hrc.symm)
          apply h1
          refine ⟨?_, ?_, ?_⟩
          · calc N = 1 * N := (Nat.one_mul N).symm
            _ ≤ r' * N := Nat.mul_le_mul_right N ha
            _ ≤ r' * N + c' := Nat.le_add_right _ _
            _ = i := hpi
          · rw [← idx_sub N i hN]
            · rw [← he1, ← he2]
              exact hcond.1
            · calc N = 1 * N := (Nat.one_mul N).symm
              _ ≤ r' * N := Nat.mul_le_mul_right N ha
              _ ≤ r' * N + c' := Nat.le_add_right _ _
              _ = i := hpi
          · rw [← hpi]; exact hcond.2
        · simp only
          intro hpi
          apply h2
          have hr'1 : r' - 1 = i / N ∧ c' = i % N := idx_inj N hcc hc (hpi.trans hrc.symm)
          have hr' : r' = i / N + 1 := by omega
          refine ⟨?_, ?_, ?_⟩
          · rw [add_row_lt_iff N i hN]; omega
          · rw [← hpi]; exact hcond.1
          · rw [← idx_add N i, ← hr', ← hr'1.2]
            exact hcond.2
      · rw [if_neg hcond] at hpw; cases hpw

theorem risingPass_getD (N : Nat) (prev g : List GridCell) (hg : g.length = N * N)
    (i : Nat) (hi : i < N * N) :
    (risingPass N prev g).getD i emptyCell =
      if riseInto N prev i then prev.getD (i + N) emptyCell
      else if riseFrom N prev i then emptyCell
      else g.getD i emptyCell := by
  have hN : 0 < N := by
    rcases Nat.eq_zero_or_pos N with h | h
    · subst h; simp at hi
    · exact h
  have hc : i % N < N := Nat.mod_lt _ hN
  have hrc : i / N * N + i % N = i := by rw [Nat.mul_comm]; exact Nat.div_add_mod i N
  have hr : i / N < N := (Nat.div_lt_iff_lt_mul hN).mpr hi
  rw [risingPass_eq_applyWrites]
  by_cases h1 : riseInto N prev i
  · rw [if_pos h1]
    obtain ⟨hlt, hdn, h0⟩ := h1
    have hradd : i / N + 1 < N := (add_row_lt_iff N i hN).mp hlt
    apply applyWrites_getD_of_mem _ _ _ _ (by rw [hg]; exact hi)
    · refine List.mem_flatMap.mpr
        ⟨(i / N, i % N), (mem_stepsUp N _).mpr ⟨by omega, hc⟩, ?_⟩
      unfold riseWrites
      simp only
      rw [idx_add, hrc, if_pos ⟨hdn, h0⟩]
      exact List.mem_cons_self _ _
    · rintro p hp hpi
      obtain ⟨⟨r', c'⟩, hrc', hpw⟩ := List.mem_flatMap.mp hp
      rw [mem_stepsUp] at hrc'
      obtain ⟨ha, hcc⟩ := hrc'
      dsimp only at ha hcc
      unfold riseWrites at hpw
      simp only at hpw
      by_cases hcond : (prev.getD ((r' + 1) * N + c') emptyCell).state = 2 ∧
          (prev.getD (r' * N + c') emptyCell).state = 0
      · rw [if_pos hcond] at hpw
        simp only [List.mem_cons, List.not_mem_nil, or_false] at hpw
        rcases hpw with rfl | rfl
        · simp only at hpi ⊢
          obtain ⟨he1, he2⟩ := idx_inj N hcc hc (hpi.trans hrc.symm)
          rw [he1, he2, idx_add]
        · simp only at hpi ⊢
          rw [hpi] at hcond
          exact absurd hcond.1 (by rw [h0]; omega)
      · rw [if_neg hcond] at hpw; cases hpw
  · rw [if_neg h1]
    by_cases h2 : riseFrom N prev i
    · rw [if_pos h2]
      obtain ⟨hNi, h2s, h0s⟩ := h2
      have hr1 : 1 ≤ i / N := (Nat.one_le_div_iff hN).mpr hNi
      have hsub : (i / N - 1) * N + i % N = i - N := idx_sub N i hN hNi
      have hstep : (i / N - 1) + 1 = i / N := by omega
      apply applyWrites_getD_of_mem _ _ _ _ (by rw [hg]; exact hi)
      · refine List.mem_flatMap.mpr
          ⟨(i / N - 1, i % N), (mem_stepsUp N _).mpr ⟨by omega, hc⟩, ?_⟩
        unfold riseWrites
        simp only
        rw [hstep, hrc, hsub, if_pos ⟨h2s, h0s⟩]
        exact List.mem_cons_of_mem _ (List.mem_cons_self _ _)
      · rintro p hp hpi
        obtain ⟨⟨r', c'⟩, hrc', hpw⟩ := List.mem_flatMap.mp hp
        rw [mem_stepsUp] at hrc'
        obtain ⟨ha, hcc⟩ := hrc'
        dsimp only at ha hcc
        unfold riseWrites at hpw
        simp only at hpw
        by_cases hcond : (prev.getD ((r' + 1) * N + c') emptyCell).state = 2 ∧
            (prev.getD (r' * N + c') emptyCell).state = 0
        · rw [if_pos hcond] at hpw
          simp only [List.mem_cons, List.not_mem_nil, or_false] at hpw
          rcases hpw with rfl | rfl
          · simp only at hpi ⊢
            rw [hpi] at hcond
            exact absurd hcond.2 (by rw [h2s]; omega)
          · rfl
        · rw [if_neg hcond] at hpw; cases hpw
    · rw [if_neg h2]
      apply applyWrites_getD_of_not_mem
      rintro p hp
      obtain ⟨⟨r', c'⟩, hrc', hpw⟩ := List.mem_flatMap.mp hp
      rw [mem_stepsUp] at hrc'
      obtain ⟨ha, hcc⟩ := hrc'
      dsimp only at ha hcc
      unfold riseWrites at hpw
      simp only at hpw
      by_cases hcond : (prev.getD ((r' + 1) * N + c') emptyCell).state = 2 ∧
          (prev.getD (r' * N + c') emptyCell).state = 0
      · rw [if_pos hcond] at hpw
        simp only [List.mem_cons, List.not_mem_nil, or_false] at hpw
        rcases hpw with rfl | rfl
        · simp only
          intro hpi
          obtain ⟨he1, he2⟩ := idx_inj N hcc hc (hpi.trans hrc.symm)
          apply h1
          refine ⟨?_, ?_, ?_⟩
          · rw [add_row_lt_iff N i hN]; omega
          · rw [← idx_add N i, ← he1, ← he2]
            exact hcond.1
          · rw [← hpi]; exact hcond.2
        · simp only
          intro hpi
          obtain ⟨he1, he2⟩ := idx_inj N hcc hc (hpi.trans hrc.symm)
          apply h2
          have hNi : N ≤ i := by
            calc N = 1 * N := (Nat.one_mul N).symm
            _ ≤ (r' + 1) * N := Nat.mul_le_mul_right N (by omega)
            _ ≤ (r' + 1) * N + c' := Nat.le_add_right _ _
            _ = i := hpi
          refine ⟨hNi, ?_, ?_⟩
          · rw [← hpi]; exact hcond.1
          · rw [← idx_sub N i hN hNi]
            have hr'' : r' = i / N - 1 := by omega
            rw [← hr'', ← he2]
            exact hcond.2
      · rw [if_neg hcond] at hpw; cases hpw

theorem fallingPass_length (N : Nat) (prev g : List GridCell) :
    (fallingPass N prev g).length = g.length := by
  rw [fallingPass_eq_applyWrites, applyWrites_length]

theorem risingPass_length (N : Nat) (prev g : List GridCell) :
    (risingPass N prev g).length = g.length := by
  rw [risingPass_eq_applyWrites, applyWrites_length]

theorem tickGrid_length (N : Nat) (g : List GridCell) :
    (tickGrid N g).length = g.length := by
  rw [tickGrid, risingPass_length, fallingPass_length]

theorem tickGrid_getD (N : Nat) (g : List GridCell) (hg : g.length = N * N)
    (i : Nat) (hi : i < N * N) :
    (tickGrid N g).getD i emptyCell =
      if riseInto N g i then g.getD (i + N) emptyCell
      else if riseFrom N g i then emptyCell
      else if fallInto N g i then g.getD (i - N) emptyCell
      else if fallFrom N g i then emptyCell
      else g.getD i emptyCell := by
  rw [tickGrid, risingPass_getD N g _ (by rw [fallingPass_length, hg]) i hi,
    fallingPass_getD N g g hg i hi]

theorem countOcc_eq_sum (g : List GridCell) :
    countOcc g
      = ∑ i in Finset.range g.length, if (g.getD i emptyCell).state ≠ 0 then 1 else 0 := by
  induction g with
  | nil => rfl
  | cons a g ih =>
      rw [countOcc, List.countP_cons, List.length_cons, Finset.sum_range_succ']
      simp only [List.getD_cons_succ, List.getD_cons_zero]
      rw [← countOcc, ih]
      congr 1
      by_cases h : a.state = 0
      · simp [h]
      · simp [h]

theorem fallInto_def (N : Nat) (g : List GridCell) (i : Nat) :
    fallInto N g i ↔
      N ≤ i ∧ (g.getD (i - N) emptyCell).state = 1 ∧ (g.getD i emptyCell).state = 0 :=
  Iff.rfl

theorem fallFrom_def (N : Nat) (g : List GridCell) (i : Nat) :
    fallFrom N g i ↔
      i + N < N * N ∧ (g.getD i emptyCell).state = 1 ∧ (g.getD (i + N) emptyCell).state = 0 :=
  Iff.rfl

theorem riseInto_def (N : Nat) (g : List GridCell) (i : Nat) :
    riseInto N g i ↔
      i + N < N * N ∧ (g.getD (i + N) emptyCell).state = 2 ∧ (g.getD i emptyCell).state = 0 :=
  Iff.rfl

theorem riseFrom_def (N : Nat) (g : List GridCell) (i : Nat) :
    riseFrom N g i ↔
      N ≤ i ∧ (g.getD i emptyCell).state = 2 ∧ (g.getD (i - N) emptyCell).state = 0 :=
  Iff.rfl

theorem count_riseInto_eq (N : Nat) (g : List GridCell) :
    (∑ i in Finset.range (N * N), if riseInto N g i then 1 else 0)
      = ∑ i in Finset.range (N * N), if riseFrom N g i then 1 else 0 := by
  rw [← Finset.card_filter, ← Finset.card_filter]
  apply Finset.card_bij' (fun a _ => a + N) (fun b _ => b - N)
  · intro a ha
    rw [Finset.mem_filter, Finset.mem_range] at ha
    obtain ⟨hmem, hri⟩ := ha
    rw [riseInto_def] at hri
    obtain ⟨hlt, h2, h0⟩ := hri
    rw [Finset.mem_filter, Finset.mem_range, riseFrom_def]
    refine ⟨hlt, Nat.le_add_left N a, h2, ?_⟩
    rw [Nat.add_sub_cancel]; exact h0
  · intro b hb
    rw [Finset.mem_filter, Finset.mem_range] at hb
    obtain ⟨hmem, hrf⟩ := hb
    rw [riseFrom_def] at hrf
    obtain ⟨hNb, h2, h0⟩ := hrf
    rw [Finset.mem_filter, Finset.mem_range, riseInto_def]
    have hb' : b - N + N = b := Nat.sub_add_cancel hNb
    refine ⟨by omega, ?_, ?_, h0⟩
    · rw [hb']; exact hmem
    · rw [hb']; exact h2
  · intro a ha; omega
  · intro b hb
    rw [Finset.mem_filter, riseFrom_def] at hb
    exact Nat.sub_add_cancel hb.2.1

theorem count_fallInto_eq (N : Nat) (g : List GridCell) :
    (∑ i in Finset.range (N * N), if fallInto N g i then 1 else 0)
      = ∑ i in Finset.range (N * N), if fallFrom N g i then 1 else 0 := by
  rw [← Finset.card_filter, ← Finset.card_filter]
  apply Finset.card_bij' (fun a _ => a - N) (fun b _ => b + N)
  · intro a ha
    rw [Finset.mem_filter, Finset.mem_range] at ha
    obtain ⟨hmem, hfi⟩ := ha
    rw [fallInto_def] at hfi
    obtain ⟨hNa, h1, h0⟩ := hfi
    rw [Finset.mem_filter, Finset.mem_range, fallFrom_def]
    have ha' : a - N + N = a := Nat.sub_add_cancel hNa
    refine ⟨by omega, ?_, h1, ?_⟩
    · rw [ha']; exact hmem
    · rw [ha']; exact h0
  · intro b hb
    rw [Finset.mem_filter, Finset.mem_range] at hb
    obtain ⟨hmem, hff⟩ := hb
    rw [fallFrom_def] at hff
    obtain ⟨hlt, h1, h0⟩ := hff
    rw [Finset.mem_filter, Finset.mem_range, fallInto_def]
    refine ⟨hlt, Nat.le_add_left N b, ?_, h0⟩
    rw [Nat.add_sub_cancel]; exact h1
  · intro a ha
    rw [Finset.mem_filter, fallInto_def] at ha
    exact Nat.sub_add_cancel ha.2.1
  · intro b hb; omega

/-- Claim C1, amended: one lattice tick preserves the number of occupied
cells provided no cell is simultaneously a falling destination and a rising
destination, i.e. provided no Empty cell has a Falling cell directly above it
and a Rising cell directly below it in the snapshot.  (As originally stated
the claim fails: on such a meeting cell the rising pass overwrites the cell
the falling pass had just filled, and one occupant is lost.) -/
theorem tick_count_conserved_of_no_meet (N : Nat) (g : List GridCell) (hg : g.length = N * N)
    (hnc : ∀ i, i < N * N → ¬ (fallInto N g i ∧ riseInto N g i)) :
    countOcc (tickGrid N g) = countOcc g := by
  rw [countOcc_eq_sum, countOcc_eq_sum, tickGrid_length, hg]
  have key : ∀ i ∈ Finset.range (N * N),
      ((if ((tickGrid N g).getD i emptyCell).state ≠ 0 then 1 else 0)
          + ((if riseFrom N g i then 1 else 0) + (if fallFrom N g i then 1 else 0)) : ℕ)
        = (if (g.getD i emptyCell).state ≠ 0 then 1 else 0)
          + ((if riseInto N g i then 1 else 0) + (if fallInto N g i then 1 else 0)) := by
    intro i hi
    rw [Finset.mem_range] at hi
    rw [tickGrid_getD N g hg i hi]
    by_cases hri : riseInto N g i
    · have h2 := (riseInto_def N g i).mp hri
      have hfi : ¬ fallInto N g i := fun h => hnc i hi ⟨h, hri⟩
      have hrf : ¬ riseFrom N g i := by
        rw [riseFrom_def]; rintro ⟨-, hs, -⟩; have := h2.2.2; omega
      have hff : ¬ fallFrom N g i := by
        rw [fallFrom_def]; rintro ⟨-, hs, -⟩; have := h2.2.2; omega
      simp only [if_pos hri, if_neg hrf, if_neg hff, if_neg hfi, h2.2.1, h2.2.2]
      norm_num
    · by_cases hrf : riseFrom N g i
      · have h2 := (riseFrom_def N g i).mp hrf
        have hfi : ¬ fallInto N g i := by
          rw [fallInto_def]; rintro ⟨-, -, hs⟩; have := h2.2.1; omega
        have hff : ¬ fallFrom N g i := by
          rw [fallFrom_def]; rintro ⟨-, hs, -⟩; have := h2.2.1; omega
        simp only [if_neg hri, if_pos hrf, if_neg hff, if_neg hfi, h2.2.1]
        norm_num [emptyCell]
      · by_cases hfi : fallInto N g i
        · have h2 := (fallInto_def N g i).mp hfi
          have hff : ¬ fallFrom N g i := by
            rw [fallFrom_def]; rintro ⟨-, hs, -⟩; have := h2.2.2; omega
          simp only [if_neg hri, if_neg hrf, if_pos hfi, if_neg hff, h2.2.1, h2.2.2]
          norm_num
        · by_cases hff : fallFrom N g i
          · have h2 := (fallFrom_def N g i).mp hff
            simp only [if_neg hri, if_neg hrf, if_neg hfi, if_pos hff, h2.2.1]
            norm_num [emptyCell]
          · simp only [if_neg hri, if_neg hrf, if_neg hfi, if_neg hff]
  have hsum := Finset.sum_congr rfl key
  rw [Finset.sum_add_distrib, Finset.sum_add_distrib, Finset.sum_add_distrib,
    Finset.sum_add_distrib] at hsum
  have hshift1 := count_riseInto_eq N g
  have hshift2 := count_fallInto_eq N g
  omega

/-- Claim C1, counterexample: on the 3×3 lattice whose column 0 reads
Falling, Empty, Rising (top to bottom), a tick loses one occupant — the
rising pass overwrites the cell the falling pass just filled — so the
occupied-cell count is not conserved for every configuration mixing Falling
and Rising material. -/
theorem tick_count_not_conserved_cex :
    countOcc (tickGrid 3
        [⟨1, "o"⟩, emptyCell, emptyCell,
         emptyCell, emptyCell, emptyCell,
         ⟨2, "b"⟩, emptyCell, emptyCell])
      ≠ countOcc
        [⟨1, "o"⟩, emptyCell, emptyCell,
         emptyCell, emptyCell, emptyCell,
         ⟨2, "b"⟩, emptyCell, emptyCell] := by decide

/-- Witness for `tick_count_conserved_of_no_meet` at a concrete input. -/
theorem tick_count_conserved_witness :
    countOcc (tickGrid 2 [⟨1, "o"⟩, emptyCell, emptyCell, emptyCell])
      = countOcc [⟨1, "o"⟩, emptyCell, emptyCell, emptyCell] :=
  tick_count_conserved_of_no_meet 2 _ (by decide) (by decide)

theorem fallDest_def (N : Nat) (g : List GridCell) (i : Nat) :
    fallDest N g i ↔
      (g.getD i emptyCell).state = 0 ∧ ((fallingPass N g g).getD i emptyCell).state ≠ 0 :=
  Iff.rfl

theorem riseDest_def (N : Nat) (g : List GridCell) (i : Nat) :
    riseDest N g i ↔
      (g.getD i emptyCell).state = 0 ∧ ((risingPass N g g).getD i emptyCell).state ≠ 0 :=
  Iff.rfl

/-- Claim C2, amended: the destination cells newly occupied by the falling
pass are disjoint from those newly occupied by the rising pass provided no
previously-Empty cell has a Falling cell directly above it and a Rising cell
directly below it in the snapshot.  (Exactly such cells are destinations of
both passes at once, so the claim fails for arbitrary configurations.) -/
theorem pass_destinations_disjoint_of_no_meet (N : Nat) (g : List GridCell)
    (hg : g.length = N * N)
    (hnc : ∀ i, i < N * N → ¬ (fallInto N g i ∧ riseInto N g i)) (i : Nat) :
    ¬ (fallDest N g i ∧ riseDest N g i) := by
  rintro ⟨hf, hr⟩
  by_cases hi : i < N * N
  · obtain ⟨hf0, hf1⟩ := (fallDest_def N g i).mp hf
    obtain ⟨hr0, hr1⟩ := (riseDest_def N g i).mp hr
    rw [fallingPass_getD N g g hg i hi] at hf1
    rw [risingPass_getD N g g hg i hi] at hr1
    have hfi : fallInto N g i := by
      by_cases h1 : fallInto N g i
      · exact h1
      · rw [if_neg h1] at hf1
        by_cases h2 : fallFrom N g i
        · have h21 := ((fallFrom_def N g i).mp h2).2.1
          exact absurd hf0 (by omega)
        · rw [if_neg h2] at hf1
          exact absurd hf0 hf1
    have hriP : riseInto N g i := by
      by_cases h1 : riseInto N g i
      · exact h1
      · rw [if_neg h1] at hr1
        by_cases h2 : riseFrom N g i
        · have h21 := ((riseFrom_def N g i).mp h2).2.1
          exact absurd hr0 (by omega)
        · rw [if_neg h2] at hr1
          exact absurd hr0 hr1
    exact hnc i hi ⟨hfi, hriP⟩
  · push_neg at hi
    obtain ⟨hf0, hf1⟩ := (fallDest_def N g i).mp hf
    apply hf1
    rw [getD_of_length_le]
    · rfl
    · rw [fallingPass_length, hg]; exact hi

/-- Claim C2, counterexample: on the 3×3 lattice with Falling at (0,0) and
Rising at (2,0), cell (1,0) — previously Empty, Falling directly above it,
Rising directly below it — is written as newly occupied by both passes, so
the two destination sets are not disjoint for every configuration. -/
theorem pass_destinations_overlap_cex :
    fallDest 3
        [⟨1, "o"⟩, emptyCell, emptyCell,
         emptyCell, emptyCell, emptyCell,
         ⟨2, "b"⟩, emptyCell, emptyCell] 3
    ∧ riseDest 3
        [⟨1, "o"⟩, emptyCell, emptyCell,
         emptyCell, emptyCell, emptyCell,
         ⟨2, "b"⟩, emptyCell, emptyCell] 3 := by decide

/-- Witness for `pass_destinations_disjoint_of_no_meet` at a concrete input. -/
theorem pass_destinations_disjoint_witness :
    ¬ (fallDest 2 [⟨1, "o"⟩, emptyCell, emptyCell, emptyCell] 2
        ∧ riseDest 2 [⟨1, "o"⟩, emptyCell, emptyCell, emptyCell] 2) :=
  pass_destinations_disjoint_of_no_meet 2 _ (by decide) (by decide) 2

/-- Claim C3, amended: in a column that is Falling in rows `0..N-2` and Empty
in row `N-1`, one tick moves only the bottommost occupant down: afterwards
row `N-2` is Empty and every other row of the column is Falling.  (The
original claim said the entire contiguous run shifts down one row; it does
not, because the pass conditions are read from the previous-state snapshot,
so an occupant whose lower neighbour was occupied in the snapshot stays
put.) -/
theorem column_moves_bottom_only (N : Nat) (g : List GridCell) (col : Nat)
    (hg : g.length = N * N) (hN : 2 ≤ N) (hcol : col < N)
    (hfill : ∀ r, r < N - 1 → (g.getD (r * N + col) emptyCell).state = 1)
    (hbot : (g.getD ((N - 1) * N + col) emptyCell).state = 0) :
    ∀ r, r < N →
      ((tickGrid N g).getD (r * N + col) emptyCell).state = if r = N - 2 then 0 else 1 := by
  intro r hr
  have hN0 : 0 < N := by omega
  have hi : r * N + col < N * N := idx_lt N hr hcol
  have hdiv : (r * N + col) / N = r := idx_div N r col hcol
  have hup : r * N + col + N = (r + 1) * N + col := by
    rw [Nat.add_mul, Nat.one_mul]; omega
  rw [tickGrid_getD N g hg _ hi]
  rcases Nat.lt_or_ge r (N - 1) with hrtop | hrbot
  · have hsi : (g.getD (r * N + col) emptyCell).state = 1 := hfill r hrtop
    have hri : ¬ riseInto N g (r * N + col) := by
      rw [riseInto_def]; rintro ⟨-, -, hs⟩; omega
    have hrf : ¬ riseFrom N g (r * N + col) := by
      rw [riseFrom_def]; rintro ⟨-, hs, -⟩; omega
    have hfi : ¬ fallInto N g (r * N + col) := by
      rw [fallInto_def]; rintro ⟨-, -, hs⟩; omega
    rw [if_neg hri, if_neg hrf, if_neg hfi]
    rcases Nat.lt_or_ge r (N - 2) with hr2 | hr2'
    · have hsb : (g.getD (r * N + col + N) emptyCell).state = 1 := by
        rw [hup]; exact hfill (r + 1) (by omega)
      have hff : ¬ fallFrom N g (r * N + col) := by
        rw [fallFrom_def]; rintro ⟨-, -, hs⟩; omega
      rw [if_neg hff, if_neg (show ¬ r = N - 2 by omega)]
      exact hsi
    · have hre : r = N - 2 := by omega
      subst hre
      have hkey : (N - 2) * N + N = (N - 1) * N := by
        have e : N - 2 + 1 = N - 1 := by omega
        calc (N - 2) * N + N = (N - 2 + 1) * N := by rw [Nat.add_mul, Nat.one_mul]
        _ = (N - 1) * N := by rw [e]
      have hsb : (g.getD ((N - 2) * N + col + N) emptyCell).state = 0 := by
        have e2 : (N - 2) * N + col + N = (N - 1) * N + col := by omega
        rw [e2]; exact hbot
      have hff : fallFrom N g ((N - 2) * N + col) := by
        rw [fallFrom_def]
        refine ⟨?_, hsi, hsb⟩
        rw [add_row_lt_iff N _ hN0, hdiv]
        omega
      rw [if_pos hff, if_pos rfl]
      rfl
  · have hre : r = N - 1 := by omega
    subst hre
    have hkey : (N - 2) * N + N = (N - 1) * N := by
      have e : N - 2 + 1 = N - 1 := by omega
      calc (N - 2) * N + N = (N - 2 + 1) * N := by rw [Nat.add_mul, Nat.one_mul]
      _ = (N - 1) * N := by rw [e]
    have hkey2 : (N - 1) * N + N = N * N := by
      have e : N - 1 + 1 = N := by omega
      calc (N - 1) * N + N = (N - 1 + 1) * N := by rw [Nat.add_mul, Nat.one_mul]
      _ = N * N := by rw [e]
    have hNle : N ≤ (N - 1) * N + col := by
      have h1 : N ≤ (N - 1) * N := by
        calc N = 1 * N := (Nat.one_mul N).symm
        _ ≤ (N - 1) * N := Nat.mul_le_mul_right N (by omega)
      omega
    have hsub : (N - 1) * N + col - N = (N - 2) * N + col := by omega
    have hsa : (g.getD ((N - 1) * N + col - N) emptyCell).state = 1 := by
      rw [hsub]; exact hfill (N - 2) (by omega)
    have hri : ¬ riseInto N g ((N - 1) * N + col) := by
      rw [riseInto_def]; rintro ⟨hlt, -, -⟩; omega
    have hrf : ¬ riseFrom N g ((N - 1) * N + col) := by
      rw [riseFrom_def]; rintro ⟨-, hs, -⟩; omega
    have hfi : fallInto N g ((N - 1) * N + col) := by
      rw [fallInto_def]; exact ⟨hNle, hsa, hbot⟩
    rw [if_neg hri, if_neg hrf, if_pos hfi, if_neg (show ¬ N - 1 = N - 2 by omega)]
    exact hsa

/-- Claim C3, counterexample: on the 3×3 lattice whose column 0 reads
Falling, Falling, Empty (top to bottom), one tick does not shift the whole
run down one row — after the tick it is not the case that row 0 is Empty and
rows 1 and 2 are Falling (the actual result is Falling, Empty, Falling). -/
theorem column_drain_cex :
    ¬ ( ((tickGrid 3 [⟨1, "o"⟩, emptyCell, emptyCell,
                      ⟨1, "o"⟩, emptyCell, emptyCell,
                      emptyCell, emptyCell, emptyCell]).getD 0 emptyCell).state = 0
      ∧ ((tickGrid 3 [⟨1, "o"⟩, emptyCell, emptyCell,
                      ⟨1, "o"⟩, emptyCell, emptyCell,
                      emptyCell, emptyCell, emptyCell]).getD 3 emptyCell).state = 1
      ∧ ((tickGrid 3 [⟨1, "o"⟩, emptyCell, emptyCell,
                      ⟨1, "o"⟩, emptyCell, emptyCell,
                      emptyCell, emptyCell, emptyCell]).getD 6 emptyCell).state = 1 ) := by
  decide

/-- Witness for `column_moves_bottom_only` at a concrete input. -/
theorem column_moves_bottom_only_witness :
    ((tickGrid 2 [⟨1, "o"⟩, emptyCell, emptyCell, emptyCell]).getD (0 * 2 + 0) emptyCell).state
      = if 0 = 2 - 2 then 0 else 1 :=
  column_moves_bottom_only 2 [⟨1, "o"⟩, emptyCell, emptyCell, emptyCell] 0
    (by decide) (by decide) (by decide) (by decide) (by decide) 0 (by decide)

/-- Claim C9: on the 4×4 lattice whose column 0 reads Falling, Empty,
Falling, Empty (top to bottom) and whose other columns are Empty, one tick
yields column 0 Empty, Falling, Empty, Falling — each occupant moves down
exactly one row, independently, in the same tick. -/
theorem column_scenario_N4 :
    ((tickGrid 4 [⟨1, "o"⟩, emptyCell, emptyCell, emptyCell,
                  emptyCell, emptyCell, emptyCell, emptyCell,
                  ⟨1, "o"⟩, emptyCell, emptyCell, emptyCell,
                  emptyCell, emptyCell, emptyCell, emptyCell]).map (fun c => c.state))
      = [0, 0, 0, 0, 1, 0, 0, 0, 0, 0, 0, 0, 1, 0, 0, 0] := by decide

theorem swapCell_state_two (c : GridCell) : (swapCell c).state = 2 ↔ c.state = 1 := by
  unfold swapCell
  split_ifs with h1 h2 <;> constructor <;> intro h <;> simp_all

theorem swapCell_state_zero (c : GridCell) : (swapCell c).state = 0 ↔ c.state = 0 := by
  unfold swapCell
  split_ifs with h1 h2 <;> constructor <;> intro h <;> simp_all

theorem swapCell_emptyCell : swapCell emptyCell = emptyCell := rfl

theorem mirrorV_length (N : Nat) (g : List GridCell) : (mirrorV N g).length = N * N := by
  simp [mirrorV]

theorem mirrorV_getD (N : Nat) (g : List GridCell) (i : Nat) (hi : i < N * N) :
    (mirrorV N g).getD i emptyCell
      = swapCell (g.getD ((N - 1 - i / N) * N + i % N) emptyCell) := by
  unfold mirrorV
  rw [List.getD_eq_getElem?_getD, List.getElem?_map, List.getElem?_range hi]
  rfl

theorem getD_ext (l1 l2 : List GridCell) (hlen : l1.length = l2.length)
    (h : ∀ j, j < l1.length → l1.getD j emptyCell = l2.getD j emptyCell) : l1 = l2 := by
  apply List.ext_getElem hlen
  intro n h1 h2
  have hn := h n h1
  rwa [List.getD_eq_getElem?_getD, List.getD_eq_getElem?_getD, List.getElem?_eq_getElem h1,
    List.getElem?_eq_getElem h2, Option.getD_some, Option.getD_some] at hn

theorem le_idx_iff (N r c : Nat) (hc : c < N) : N ≤ r * N + c ↔ 1 ≤ r := by
  constructor
  · intro h
    by_contra hr
    have hr0 : r = 0 := by omega
    subst hr0
    simp at h
    omega
  · intro h
    calc N = 1 * N := (Nat.one_mul N).symm
    _ ≤ r * N := Nat.mul_le_mul_right N h
    _ ≤ r * N + c := Nat.le_add_right _ _

theorem aux_sub_lt (N b : Nat) (hN : 0 < N) : N - 1 - b < N := by omega

theorem aux_sub_succ (N b : Nat) : N - 1 - (b + 1) = N - 1 - b - 1 := by omega

theorem aux_one_le_sub (N b : Nat) (h : b + 1 < N) : 1 ≤ N - 1 - b := by omega

theorem aux_succ_lt (N b : Nat) (hb : b < N) (h : 1 ≤ N - 1 - b) : b + 1 < N := by omega

theorem aux_sub_pred (N b : Nat) (h1 : 1 ≤ b) (hb : b < N) :
    N - 1 - (b - 1) = (N - 1 - b) + 1 := by omega

theorem aux_sub_succ_lt (N b : Nat) (h1 : 1 ≤ b) (hb : b < N) : N - 1 - b + 1 < N := by omega

theorem aux_one_le_of (N b : Nat) (hb : b < N) (h : N - 1 - b + 1 < N) : 1 ≤ b := by omega

/-- Claim C8: the falling rule and the rising rule are vertical mirrors of
each other — applying the falling pass and then the vertical mirror (which
reflects rows and exchanges the Falling and Rising material tags) gives the
same lattice as first applying that mirror and then the rising pass. -/
theorem fall_rise_mirror (N : Nat) (g : List GridCell) (hg : g.length = N * N) :
    mirrorV N (fallingPass N g g) = risingPass N (mirrorV N g) (mirrorV N g) := by
  have hlen1 : (mirrorV N (fallingPass N g g)).length = N * N := mirrorV_length N _
  have hlen2 : (risingPass N (mirrorV N g) (mirrorV N g)).length = N * N := by
    rw [risingPass_length, mirrorV_length]
  apply getD_ext _ _ (by rw [hlen1, hlen2])
  intro j hj
  rw [hlen1] at hj
  have hN : 0 < N := by
    rcases Nat.eq_zero_or_pos N with h | h
    · subst h; simp at hj
    · exact h
  have hc : j % N < N := Nat.mod_lt _ hN
  have hrj : j / N < N := (Nat.div_lt_iff_lt_mul hN).mpr hj
  have hiN : (N - 1 - j / N) * N + j % N < N * N :=
    idx_lt N (aux_sub_lt N (j / N) hN) hc
  have hEdiv : ((N - 1 - j / N) * N + j % N) / N = N - 1 - j / N := idx_div N _ _ hc
  have hEmod : ((N - 1 - j / N) * N + j % N) % N = j % N := idx_mod N _ _ hc
  have hval3 : (mirrorV N g).getD j emptyCell
      = swapCell (g.getD ((N - 1 - j / N) * N + j % N) emptyCell) := mirrorV_getD N g j hj
  have hEq1 : j + N < N * N →
      (mirrorV N g).getD (j + N) emptyCell
        = swapCell (g.getD ((N - 1 - j / N) * N + j % N - N) emptyCell) := by
    intro hlt
    have hradd : j / N + 1 < N := (add_row_lt_iff N j hN).mp hlt
    have hNE : N ≤ (N - 1 - j / N) * N + j % N :=
      (le_idx_iff N _ _ hc).mpr (aux_one_le_sub N (j / N) hradd)
    have hEsub := idx_sub N ((N - 1 - j / N) * N + j % N) hN hNE
    rw [hEdiv, hEmod] at hEsub
    have hupidx : (j + N) / N = j / N + 1 := by
      rw [← idx_add N j]
      exact idx_div N _ _ hc
    have hupmod : (j + N) % N = j % N := by
      rw [← idx_add N j]
      exact idx_mod N _ _ hc
    rw [mirrorV_getD N g (j + N) hlt, hupidx, hupmod, aux_sub_succ N (j / N), hEsub]
  have hEq2 : N ≤ j →
      (mirrorV N g).getD (j - N) emptyCell
        = swapCell (g.getD ((N - 1 - j / N) * N + j % N + N) emptyCell) := by
    intro hNj
    have h1j : 1 ≤ j / N := (Nat.one_le_div_iff hN).mpr hNj
    have hjsub := idx_sub N j hN hNj
    have hdn_div : (j - N) / N = j / N - 1 := by
      rw [← hjsub]
      exact idx_div N _ _ hc
    have hdn_mod : (j - N) % N = j % N := by
      rw [← hjsub]
      exact idx_mod N _ _ hc
    have hjN : j - N < N * N := by omega
    rw [mirrorV_getD N g (j - N) hjN, hdn_div, hdn_mod]
    have hidx : (N - 1 - (j / N - 1)) * N + j % N = (N - 1 - j / N) * N + j % N + N := by
      rw [aux_sub_pred N (j / N) h1j hrj, Nat.add_mul, Nat.one_mul]
      omega
    rw [hidx]
  have hInto : riseInto N (mirrorV N g) j ↔ fallInto N g ((N - 1 - j / N) * N + j % N) := by
    rw [riseInto_def, fallInto_def]
    constructor
    · rintro ⟨hlt, h2, h0⟩
      have hradd : j / N + 1 < N := (add_row_lt_iff N j hN).mp hlt
      have hNE : N ≤ (N - 1 - j / N) * N + j % N :=
        (le_idx_iff N _ _ hc).mpr (aux_one_le_sub N (j / N) hradd)
      refine ⟨hNE, ?_, ?_⟩
      · rw [hEq1 hlt] at h2
        exact (swapCell_state_two _).mp h2
      · rw [hval3] at h0
        exact (swapCell_state_zero _).mp h0
    · rintro ⟨hNE, h1, h0⟩
      have h1r : 1 ≤ N - 1 - j / N := (le_idx_iff N _ _ hc).mp hNE
      have hlt : j + N < N * N := (add_row_lt_iff N j hN).mpr (aux_succ_lt N (j / N) hrj h1r)
      refine ⟨hlt, ?_, ?_⟩
      · rw [hEq1 hlt]
        exact (swapCell_state_two _).mpr h1
      · rw [hval3]
        exact (swapCell_state_zero _).mpr h0
  have hFrom : riseFrom N (mirrorV N g) j ↔ fallFrom N g ((N - 1 - j / N) * N + j % N) := by
    rw [riseFrom_def, fallFrom_def]
    constructor
    · rintro ⟨hNj, h2, h0⟩
      have h1j : 1 ≤ j / N := (Nat.one_le_div_iff hN).mpr hNj
      have hEltN : (N - 1 - j / N) * N + j % N + N < N * N := by
        rw [add_row_lt_iff N _ hN, hEdiv]
        exact aux_sub_succ_lt N (j / N) h1j hrj
      refine ⟨hEltN, ?_, ?_⟩
      · rw [hval3] at h2
        exact (swapCell_state_two _).mp h2
      · rw [hEq2 hNj] at h0
        exact (swapCell_state_zero _).mp h0
    · rintro ⟨hEltN, h1, h0⟩
      have hErow : ((N - 1 - j / N) * N + j % N) / N + 1 < N := (add_row_lt_iff N _ hN).mp hEltN
      rw [hEdiv] at hErow
      have hNj : N ≤ j := (Nat.one_le_div_iff hN).mp (aux_one_le_of N (j / N) hrj hErow)
      refine ⟨hNj, ?_, ?_⟩
      · rw [hval3]
        exact (swapCell_state_two _).mpr h1
      · rw [hEq2 hNj]
        exact (swapCell_state_zero _).mpr h0
  rw [mirrorV_getD N (fallingPass N g g) j hj,
    risingPass_getD N (mirrorV N g) (mirrorV N g) (mirrorV_length N g) j hj,
    fallingPass_getD N g g hg ((N - 1 - j / N) * N + j % N) hiN]
  by_cases hfi : fallInto N g ((N - 1 - j / N) * N + j % N)
  · rw [if_pos hfi, if_pos (hInto.mpr hfi)]
    have hNE : N ≤ (N - 1 - j / N) * N + j % N := ((fallInto_def N g _).mp hfi).1
    have h1r : 1 ≤ N - 1 - j / N := (le_idx_iff N _ _ hc).mp hNE
    have hlt : j + N < N * N := (add_row_lt_iff N j hN).mpr (aux_succ_lt N (j / N) hrj h1r)
    rw [hEq1 hlt]
  · by_cases hff : fallFrom N g ((N - 1 - j / N) * N + j % N)
    · rw [if_neg hfi, if_pos hff, if_neg (fun h => hfi (hInto.mp h)), if_pos (hFrom.mpr hff)]
      exact swapCell_emptyCell
    · rw [if_neg hfi, if_neg hff, if_neg (fun h => hfi (hInto.mp h)),
        if_neg (fun h => hff (hFrom.mp h)), hval3]

/-- Witness for `fall_rise_mirror` at a concrete input. -/
theorem fall_rise_mirror_witness :
    mirrorV 2 (fallingPass 2 [⟨1, "o"⟩, emptyCell, emptyCell, ⟨2, "b"⟩]
        [⟨1, "o"⟩, emptyCell, emptyCell, ⟨2, "b"⟩])
      = risingPass 2 (mirrorV 2 [⟨1, "o"⟩, emptyCell, emptyCell, ⟨2, "b"⟩])
          (mirrorV 2 [⟨1, "o"⟩, emptyCell, emptyCell, ⟨2, "b"⟩]) :=
  fall_rise_mirror 2 [⟨1, "o"⟩, emptyCell, emptyCell, ⟨2, "b"⟩] (by decide)

/-- Claim C4, amended: one particle tick maps every particle to new
`y = old y + old vy` and new `vy = old vy + GRAVITY` — both updated fields
are computed from the old particle, so the gravity increment does not reach
the position until the next tick — and GRAVITY is a single positive constant
added with the same sign for every particle regardless of its direction.
(As originally stated the claim required `new y = old y + old vy + GRAVITY`,
which the code does not compute.) -/
theorem particle_integration_formula (ps : List Particle) :
    stepParticles ps
      = (ps.map (fun p =>
          { x := p.x
            y := p.y + p.vy
            vy := p.vy + GRAVITY
            isBlue := p.isBlue
            color := p.color })).filter
          (fun p => p.y < CANVAS_SIZE)
      ∧ (0 : ℚ) < GRAVITY := by
  constructor
  · rfl
  · norm_num [GRAVITY]

/-- Claim C4, counterexample: for a particle with `y = 0` and
`vy = INITIAL_VELOCITY`, one tick yields `y = 1/10`, not
`0 + INITIAL_VELOCITY + GRAVITY = 3/20` — the tick's position update uses
the pre-update velocity, not the gravity-updated one. -/
theorem particle_position_update_cex :
    ((stepParticles [⟨0, 0, INITIAL_VELOCITY, false, "o"⟩]).getD 0 defaultParticle).y
      ≠ 0 + INITIAL_VELOCITY + GRAVITY := by
  norm_num [stepParticles, INITIAL_VELOCITY, GRAVITY, CANVAS_SIZE, List.filter]

/-- Claim C5, amended: after integration, a particle is retained exactly
when its updated `y` is strictly below the fixed bound `CANVAS_SIZE` and
removed exactly when the updated `y` is greater than or equal to it — a
particle whose updated `y` equals the bound exactly is removed, not
retained.  The filter depends only on the updated `y`: not on `x`, not on
any top bound, and not on the particle's direction. -/
theorem particle_removal_strict_bound (p : Particle) :
    stepParticles [p]
      = if p.y + p.vy < CANVAS_SIZE then
          [{ x := p.x
             y := p.y + p.vy
             vy := p.vy + GRAVITY
             isBlue := p.isBlue
             color := p.color }]
        else [] := by
  unfold stepParticles
  simp only [List.map_cons, List.map_nil, List.filter_cons, List.filter_nil]
  by_cases h : p.y + p.vy < CANVAS_SIZE <;> simp [h]

/-- Claim C5, counterexample: a particle whose updated `y` lands exactly on
the domain bound (`5119/10 + 1/10 = 512 = CANVAS_SIZE`) is removed by the
tick, not retained — the filter keeps only strictly smaller positions. -/
theorem particle_boundary_retention_cex :
    (5119 / 10 : ℚ) + 1 / 10 = CANVAS_SIZE
      ∧ stepParticles [⟨7, 5119 / 10, 1 / 10, false, "o"⟩] = [] := by
  constructor
  · norm_num [CANVAS_SIZE]
  · norm_num [stepParticles, CANVAS_SIZE, List.filter]

theorem foldl_push_eq_filterMap {α β : Type} (p : α → Prop) [DecidablePred p] (f : α → β)
    (l : List α) :
    ∀ acc : List β,
      l.foldl (fun ps i => if p i then ps ++ [f i] else ps) acc
        = acc ++ l.filterMap (fun i => if p i then some (f i) else none) := by
  induction l with
  | nil => intro acc; simp
  | cons a l ih =>
      intro acc
      by_cases h : p a
      · simp only [List.foldl_cons, if_pos h, ih, List.filterMap_cons, List.append_assoc,
          List.singleton_append]
      · simp only [List.foldl_cons, if_neg h, ih, List.filterMap_cons]

theorem length_filterMap_ite {α β : Type} (p : α → Prop) [DecidablePred p] (f : α → β)
    (l : List α) :
    (l.filterMap (fun i => if p i then some (f i) else none)).length
      = l.countP (fun i => decide (p i)) := by
  induction l with
  | nil => rfl
  | cons a l ih =>
      by_cases h : p a <;> simp [List.filterMap_cons, List.countP_cons, h, ih]

theorem range_map_getD (g : List GridCell) :
    (List.range g.length).map (fun i => g.getD i emptyCell) = g := by
  apply List.ext_getElem (by simp)
  intro n h1 h2
  simp [List.getElem_map, List.getElem_range, List.getD_eq_getElem?_getD,
    List.getElem?_eq_getElem h2]

theorem decide_eq_nat_beq (a b : Nat) : decide (a = b) = (a == b) := by
  by_cases h : a = b <;> simp [h]

theorem countP_occ_eq (g : List GridCell) :
    (List.range g.length).countP (fun i => decide ((g.getD i emptyCell).state ≠ 0))
      = g.countP (fun c => c.state != 0) := by
  conv_rhs => rw [← range_map_getD g]
  rw [List.countP_map]
  congr 1
  funext i
  simp [Function.comp, bne, decide_eq_nat_beq]

/-- Claim C6: for every lattice, conversion yields exactly one particle per
occupied cell, enumerated in ascending linear (row-major) index order, each
positioned at the cell's (col, row) scaled by `PIXEL_SIZE`, with color and
direction copied from the cell and initial `vy = -INITIAL_VELOCITY` for a
Rising cell and `+INITIAL_VELOCITY` otherwise; the particle count equals the
occupied-cell count and every cell of the replacement lattice is Empty. -/
theorem conversion_complete (s : AppState) :
    (initGrid s).particles
        = (List.range s.gridState.length).filterMap (fun i =>
            if (s.gridState.getD i emptyCell).state ≠ 0 then
              some { x := ((i % GRID_SIZE : Nat) : ℚ) * PIXEL_SIZE
                     y := ((i / GRID_SIZE : Nat) : ℚ) * PIXEL_SIZE
                     vy := if (s.gridState.getD i emptyCell).state = 2
                           then -INITIAL_VELOCITY else INITIAL_VELOCITY
                     isBlue := (s.gridState.getD i emptyCell).state == 2
                     color := (s.gridState.getD i emptyCell).color }
            else none)
      ∧ (initGrid s).particles.length = countOcc s.gridState
      ∧ ∀ i : Nat, ((initGrid s).gridState.getD i emptyCell).state = 0 := by
  have h1 : (initGrid s).particles
      = (List.range s.gridState.length).filterMap (fun i =>
          if (s.gridState.getD i emptyCell).state ≠ 0 then
            some { x := ((i % GRID_SIZE : Nat) : ℚ) * PIXEL_SIZE
                   y := ((i / GRID_SIZE : Nat) : ℚ) * PIXEL_SIZE
                   vy := if (s.gridState.getD i emptyCell).state = 2
                         then -INITIAL_VELOCITY else INITIAL_VELOCITY
                   isBlue := (s.gridState.getD i emptyCell).state == 2
                   color := (s.gridState.getD i emptyCell).color }
          else none) := by
    show initGridParticles s.gridState = _
    unfold initGridParticles
    have h := foldl_push_eq_filterMap
      (fun i => (s.gridState.getD i emptyCell).state ≠ 0)
      (fun i =>
        ({ x := ((i % GRID_SIZE : Nat) : ℚ) * PIXEL_SIZE
           y := ((i / GRID_SIZE : Nat) : ℚ) * PIXEL_SIZE
           vy := if (s.gridState.getD i emptyCell).state = 2
                 then -INITIAL_VELOCITY else INITIAL_VELOCITY
           isBlue := (s.gridState.getD i emptyCell).state == 2
           color := (s.gridState.getD i emptyCell).color } : Particle))
      (List.range s.gridState.length) []
    simpa using h
  refine ⟨h1, ?_, ?_⟩
  · rw [h1, length_filterMap_ite]
    show _ = countOcc s.gridState
    rw [countOcc, ← countP_occ_eq]
  · intro i
    show ((List.replicate (GRID_SIZE * GRID_SIZE) emptyCell).getD i emptyCell).state = 0
    rw [List.getD_eq_getElem?_getD, List.getElem?_replicate]
    split
    · rfl
    · rfl

/-- Claim C10: the conversion replaces the live particle collection rather
than appending to it — the resulting collection does not depend on the
particles alive before the call and consists exactly of the particles
generated from the lattice, so converting an all-Empty lattice leaves the
collection empty even when particles were alive before. -/
theorem conversion_replaces_particles (g : List GridCell) (ps ps' : List Particle) :
    (initGrid ⟨g, ps⟩).particles = (initGrid ⟨g, ps'⟩).particles
      ∧ (initGrid ⟨g, ps⟩).particles = initGridParticles g
      ∧ ((∀ c ∈ g, c.state = 0) → (initGrid ⟨g, ps⟩).particles = []) := by
  refine ⟨rfl, rfl, ?_⟩
  intro hall
  show initGridParticles g = []
  unfold initGridParticles
  have h := foldl_push_eq_filterMap
    (fun i => (g.getD i emptyCell).state ≠ 0)
    (fun i =>
      ({ x := ((i % GRID_SIZE : Nat) : ℚ) * PIXEL_SIZE
         y := ((i / GRID_SIZE : Nat) : ℚ) * PIXEL_SIZE
         vy := if (g.getD i emptyCell).state = 2
               then -INITIAL_VELOCITY else INITIAL_VELOCITY
         isBlue := (g.getD i emptyCell).state == 2
         color := (g.getD i emptyCell).color } : Particle))
    (List.range g.length) []
  rw [List.nil_append] at h
  rw [h]
  apply List.filterMap_eq_nil_iff.mpr
  intro i hi
  rw [List.mem_range] at hi
  have hz : (g.getD i emptyCell).state = 0 := by
    rw [List.getD_eq_getElem?_getD, List.getElem?_eq_getElem hi, Option.getD_some]
    exact hall _ (List.getElem_mem hi)
  rw [if_neg (by omega)]

/-- Witness for `conversion_replaces_particles` at a concrete input. -/
theorem conversion_replaces_particles_witness :
    (initGrid ⟨[emptyCell], [⟨0, 0, 0, false, "x"⟩]⟩).particles = [] :=
  (conversion_replaces_particles [emptyCell] [⟨0, 0, 0, false, "x"⟩] []).2.2 (by decide)

theorem stampStep_eq (N : Nat) (isBlueMode : Bool) (fallingColor risingColor : String)
    (brushSize : Nat) (centerRow centerCol : Int) (i j : Nat) (a : List GridCell) :
    (if inBrushDisc brushSize i j
        ∧ 0 ≤ centerRow - ((brushSize / 2 : Nat) : Int) + (i : Int)
        ∧ centerRow - ((brushSize / 2 : Nat) : Int) + (i : Int) < N
        ∧ 0 ≤ centerCol - ((brushSize / 2 : Nat) : Int) + (j : Int)
        ∧ centerCol - ((brushSize / 2 : Nat) : Int) + (j : Int) < N then
      a.set ((centerRow - ((brushSize / 2 : Nat) : Int) + (i : Int)) * N
          + (centerCol - ((brushSize / 2 : Nat) : Int) + (j : Int))).toNat
        (stampCell isBlueMode fallingColor risingColor)
    else a)
      = applyWrites a
          (stampWrites N isBlueMode fallingColor risingColor brushSize centerRow centerCol i j) := by
  unfold stampWrites
  by_cases h : inBrushDisc brushSize i j
      ∧ 0 ≤ centerRow - ((brushSize / 2 : Nat) : Int) + (i : Int)
      ∧ centerRow - ((brushSize / 2 : Nat) : Int) + (i : Int) < N
      ∧ 0 ≤ centerCol - ((brushSize / 2 : Nat) : Int) + (j : Int)
      ∧ centerCol - ((brushSize / 2 : Nat) : Int) + (j : Int) < N
  · rw [if_pos h, if_pos h]; rfl
  · rw [if_neg h, if_neg h]; rfl

theorem activateCell_eq_applyWrites (N : Nat) (isBlueMode : Bool)
    (fallingColor risingColor : String) (brushSize : Nat) (centerRow centerCol : Int)
    (g : List GridCell) :
    activateCell N isBlueMode fallingColor risingColor brushSize centerRow centerCol g
      = applyWrites g ((stepsBrush brushSize).flatMap (fun ij =>
          stampWrites N isBlueMode fallingColor risingColor brushSize centerRow centerCol
            ij.1 ij.2)) := by
  unfold activateCell
  have hrow : ∀ (acc : List GridCell) (i : Nat),
      (List.range brushSize).foldl (fun a (j : Nat) =>
        if inBrushDisc brushSize i j
            ∧ 0 ≤ centerRow - ((brushSize / 2 : Nat) : Int) + (i : Int)
            ∧ centerRow - ((brushSize / 2 : Nat) : Int) + (i : Int) < N
            ∧ 0 ≤ centerCol - ((brushSize / 2 : Nat) : Int) + (j : Int)
            ∧ centerCol - ((brushSize / 2 : Nat) : Int) + (j : Int) < N then
          a.set ((centerRow - ((brushSize / 2 : Nat) : Int) + (i : Int)) * N
              + (centerCol - ((brushSize / 2 : Nat) : Int) + (j : Int))).toNat
            (stampCell isBlueMode fallingColor risingColor)
        else a) acc
        = applyWrites acc ((List.range brushSize).flatMap (fun j =>
            stampWrites N isBlueMode fallingColor risingColor brushSize centerRow centerCol
              i j)) := by
    intro acc i
    rw [show (fun (a : List GridCell) (j : Nat) =>
        if inBrushDisc brushSize i j
            ∧ 0 ≤ centerRow - ((brushSize / 2 : Nat) : Int) + (i : Int)
            ∧ centerRow - ((brushSize / 2 : Nat) : Int) + (i : Int) < N
            ∧ 0 ≤ centerCol - ((brushSize / 2 : Nat) : Int) + (j : Int)
            ∧ centerCol - ((brushSize / 2 : Nat) : Int) + (j : Int) < N then
          a.set ((centerRow - ((brushSize / 2 : Nat) : Int) + (i : Int)) * N
              + (centerCol - ((brushSize / 2 : Nat) : Int) + (j : Int))).toNat
            (stampCell isBlueMode fallingColor risingColor)
        else a)
        = (fun (a : List GridCell) (j : Nat) =>
            applyWrites a (stampWrites N isBlueMode fallingColor risingColor brushSize
              centerRow centerCol i j)) from
      funext fun a => funext fun j =>
        stampStep_eq N isBlueMode fallingColor risingColor brushSize centerRow centerCol i j a]
    exact foldl_applyWrites _ _ _
  rw [show (fun (acc : List GridCell) (i : Nat) =>
      (List.range brushSize).foldl (fun a (j : Nat) =>
        if inBrushDisc brushSize i j
            ∧ 0 ≤ centerRow - ((brushSize / 2 : Nat) : Int) + (i : Int)
            ∧ centerRow - ((brushSize / 2 : Nat) : Int) + (i : Int) < N
            ∧ 0 ≤ centerCol - ((brushSize / 2 : Nat) : Int) + (j : Int)
            ∧ centerCol - ((brushSize / 2 : Nat) : Int) + (j : Int) < N then
          a.set ((centerRow - ((brushSize / 2 : Nat) : Int) + (i : Int)) * N
              + (centerCol - ((brushSize / 2 : Nat) : Int) + (j : Int))).toNat
            (stampCell isBlueMode fallingColor risingColor)
        else a) acc)
      = (fun (acc : List GridCell) (i : Nat) =>
          applyWrites acc ((List.range brushSize).flatMap (fun j =>
            stampWrites N isBlueMode fallingColor risingColor brushSize centerRow centerCol
              i j))) from
    funext fun acc => funext fun i => hrow acc i]
  rw [foldl_applyWrites]
  unfold stepsBrush
  rw [List.flatMap_assoc]
  simp only [List.flatMap_map]

theorem mem_stepsBrush (brushSize : Nat) (ij : Nat × Nat) :
    ij ∈ stepsBrush brushSize ↔ ij.1 < brushSize ∧ ij.2 < brushSize := by
  obtain ⟨i, j⟩ := ij
  simp only [stepsBrush, List.mem_flatMap, List.mem_map, List.mem_range]
  constructor
  · rintro ⟨a, ha, b, hb, h⟩
    cases h
    exact ⟨ha, hb⟩
  · rintro ⟨h1, h2⟩
    exact ⟨i, h1, j, h2, rfl⟩

/-- Claim C7: the brush stamp writes exactly the in-bounds cells whose
offset `(i, j)` inside the `brushSize × brushSize` bounding box placed at
`centerRow - brushSize/2, centerCol - brushSize/2` satisfies
`(i - brushSize/2 + 1/2)^2 + (j - brushSize/2 + 1/2)^2 ≤ (brushSize/2)^2`
(the squared form of the source's `sqrt(...) ≤ brushSize/2`), overwriting
any prior content of those cells with the requested material/color; every
offset whose cell falls outside `[0, N)` in either coordinate is silently
skipped, the grid length never changes, and an out-of-range center is never
a fatal condition — the operation is total. -/
theorem stamp_characterization (N : Nat) (isBlueMode : Bool)
    (fallingColor risingColor : String) (brushSize : Nat) (hB : 1 ≤ brushSize)
    (centerRow centerCol : Int) (g : List GridCell) (hg : g.length = N * N)
    (r c : Nat) (hr : r < N) (hc : c < N) :
    (activateCell N isBlueMode fallingColor risingColor brushSize centerRow centerCol g).length
        = g.length
      ∧ (activateCell N isBlueMode fallingColor risingColor brushSize centerRow centerCol
          g).getD (r * N + c) emptyCell
        = if 0 ≤ (r : Int) - (centerRow - ((brushSize / 2 : Nat) : Int))
              ∧ (r : Int) - (centerRow - ((brushSize / 2 : Nat) : Int)) < (brushSize : Int)
              ∧ 0 ≤ (c : Int) - (centerCol - ((brushSize / 2 : Nat) : Int))
              ∧ (c : Int) - (centerCol - ((brushSize / 2 : Nat) : Int)) < (brushSize : Int)
              ∧ inBrushDisc brushSize
                  (((r : Int) - (centerRow - ((brushSize / 2 : Nat) : Int))).toNat)
                  (((c : Int) - (centerCol - ((brushSize / 2 : Nat) : Int))).toNat)
          then stampCell isBlueMode fallingColor risingColor
          else g.getD (r * N + c) emptyCell := by
  constructor
  · rw [activateCell_eq_applyWrites, applyWrites_length]
  · rw [activateCell_eq_applyWrites]
    by_cases hcond : 0 ≤ (r : Int) - (centerRow - ((brushSize / 2 : Nat) : Int))
        ∧ (r : Int) - (centerRow - ((brushSize / 2 : Nat) : Int)) < (brushSize : Int)
        ∧ 0 ≤ (c : Int) - (centerCol - ((brushSize / 2 : Nat) : Int))
        ∧ (c : Int) - (centerCol - ((brushSize / 2 : Nat) : Int)) < (brushSize : Int)
        ∧ inBrushDisc brushSize
            (((r : Int) - (centerRow - ((brushSize / 2 : Nat) : Int))).toNat)
            (((c : Int) - (centerCol - ((brushSize / 2 : Nat) : Int))).toNat)
    · rw [if_pos hcond]
      obtain ⟨h0i, hiB, h0j, hjB, hdisc⟩ := hcond
      apply applyWrites_getD_of_mem _ _ _ _ (by rw [hg]; exact idx_lt N hr hc)
      · have hiT : (((r : Int) - (centerRow - ((brushSize / 2 : Nat) : Int))).toNat) < brushSize := by
          omega
        have hjT : (((c : Int) - (centerCol - ((brushSize / 2 : Nat) : Int))).toNat) < brushSize := by
          omega
        refine List.mem_flatMap.mpr
          ⟨((((r : Int) - (centerRow - ((brushSize / 2 : Nat) : Int))).toNat),
            (((c : Int) - (centerCol - ((brushSize / 2 : Nat) : Int))).toNat)),
            (mem_stepsBrush brushSize _).mpr ⟨hiT, hjT⟩, ?_⟩
        unfold stampWrites
        dsimp only
        have hrow : centerRow - ((brushSize / 2 : Nat) : Int)
            + ((((r : Int) - (centerRow - ((brushSize / 2 : Nat) : Int))).toNat : Nat) : Int)
            = (r : Int) := by omega
        have hcol : centerCol - ((brushSize / 2 : Nat) : Int)
            + ((((c : Int) - (centerCol - ((brushSize / 2 : Nat) : Int))).toNat : Nat) : Int)
            = (c : Int) := by omega
        rw [hrow, hcol]
        have hidx : ((r : Int) * (N : Int) + (c : Int)).toNat = r * N + c := by
          rw [show (r : Int) * (N : Int) + (c : Int) = ((r * N + c : Nat) : Int) from by
            push_cast; ring]
          exact Int.toNat_natCast _
        rw [if_pos ⟨hdisc, Int.natCast_nonneg r, by exact_mod_cast hr,
          Int.natCast_nonneg c, by exact_mod_cast hc⟩, hidx]
        exact List.mem_cons_self _ _
      · rintro p hp hpi
        obtain ⟨⟨i, j⟩, hij, hpw⟩ := List.mem_flatMap.mp hp
        unfold stampWrites at hpw
        by_cases hfired : inBrushDisc brushSize i j
            ∧ 0 ≤ centerRow - ((brushSize / 2 : Nat) : Int) + (i : Int)
            ∧ centerRow - ((brushSize / 2 : Nat) : Int) + (i : Int) < N
            ∧ 0 ≤ centerCol - ((brushSize / 2 : Nat) : Int) + (j : Int)
            ∧ centerCol - ((brushSize / 2 : Nat) : Int) + (j : Int) < N
        · rw [if_pos hfired] at hpw
          simp only [List.mem_cons, List.not_mem_nil, or_false] at hpw
          subst hpw
          rfl
        · rw [if_neg hfired] at hpw
          cases hpw
    · rw [if_neg hcond]
      apply applyWrites_getD_of_not_mem
      rintro p hp
      obtain ⟨⟨i, j⟩, hij, hpw⟩ := List.mem_flatMap.mp hp
      rw [mem_stepsBrush] at hij
      obtain ⟨hiB, hjB⟩ := hij
      dsimp only at hiB hjB
      unfold stampWrites at hpw
      by_cases hfired : inBrushDisc brushSize i j
          ∧ 0 ≤ centerRow - ((brushSize / 2 : Nat) : Int) + (i : Int)
          ∧ centerRow - ((brushSize / 2 : Nat) : Int) + (i : Int) < N
          ∧ 0 ≤ centerCol - ((brushSize / 2 : Nat) : Int) + (j : Int)
          ∧ centerCol - ((brushSize / 2 : Nat) : Int) + (j : Int) < N
      · rw [if_pos hfired] at hpw
        simp only [List.mem_cons, List.not_mem_nil, or_false] at hpw
        subst hpw
        dsimp only
        intro hpi
        obtain ⟨hdisc, h0r, hrN, h0c, hcN⟩ := hfired
        have hidx2 : ((centerRow - ((brushSize / 2 : Nat) : Int) + (i : Int)) * N
            + (centerCol - ((brushSize / 2 : Nat) : Int) + (j : Int))).toNat
            = (centerRow - ((brushSize / 2 : Nat) : Int) + (i : Int)).toNat * N
              + (centerCol - ((brushSize / 2 : Nat) : Int) + (j : Int)).toNat := by
          rw [show centerRow - ((brushSize / 2 : Nat) : Int) + (i : Int)
              = (((centerRow - ((brushSize / 2 : Nat) : Int) + (i : Int)).toNat : Nat) : Int)
            from (Int.toNat_of_nonneg h0r).symm]
          rw [show centerCol - ((brushSize / 2 : Nat) : Int) + (j : Int)
              = (((centerCol - ((brushSize / 2 : Nat) : Int) + (j : Int)).toNat : Nat) : Int)
            from (Int.toNat_of_nonneg h0c).symm]
          rw [show (((centerRow - ((brushSize / 2 : Nat) : Int) + (i : Int)).toNat : Nat) : Int)
                * (N : Int)
                + (((centerCol - ((brushSize / 2 : Nat) : Int) + (j : Int)).toNat : Nat) : Int)
              = (((centerRow - ((brushSize / 2 : Nat) : Int) + (i : Int)).toNat * N
                  + (centerCol - ((brushSize / 2 : Nat) : Int) + (j : Int)).toNat : Nat) : Int)
            from by push_cast; ring]
          exact Int.toNat_natCast _
        rw [hidx2] at hpi
        have h2 : (centerCol - ((brushSize / 2 : Nat) : Int) + (j : Int)).toNat < N := by omega
        obtain ⟨her, hec⟩ := idx_inj N h2 hc hpi
        apply hcond
        have hrowr : centerRow - ((brushSize / 2 : Nat) : Int) + (i : Int) = (r : Int) := by
          omega
        have hcolc : centerCol - ((brushSize / 2 : Nat) : Int) + (j : Int) = (c : Int) := by
          omega
        refine ⟨by omega, by omega, by omega, by omega, ?_⟩
        rw [show (((r : Int) - (centerRow - ((brushSize / 2 : Nat) : Int))).toNat) = i from by
          omega]
        rw [show (((c : Int) - (centerCol - ((brushSize / 2 : Nat) : Int))).toNat) = j from by
          omega]
        exact hdisc
      · rw [if_neg hfired] at hpw
        cases hpw

/-- Witness for `stamp_characterization` at a concrete input. -/
theorem stamp_characterization_witness :
    (activateCell 1 false "#FFA500" "#4169E1" 1 0 0 [emptyCell]).length = [emptyCell].length
      ∧ (activateCell 1 false "#FFA500" "#4169E1" 1 0 0 [emptyCell]).getD
          (0 * 1 + 0) emptyCell
        = if 0 ≤ ((0 : Nat) : Int) - (0 - ((1 / 2 : Nat) : Int))
              ∧ ((0 : Nat) : Int) - (0 - ((1 / 2 : Nat) : Int)) < ((1 : Nat) : Int)
              ∧ 0 ≤ ((0 : Nat) : Int) - (0 - ((1 / 2 : Nat) : Int))
              ∧ ((0 : Nat) : Int) - (0 - ((1 / 2 : Nat) : Int)) < ((1 : Nat) : Int)
              ∧ inBrushDisc 1 ((((0 : Nat) : Int) - (0 - ((1 / 2 : Nat) : Int))).toNat)
                  ((((0 : Nat) : Int) - (0 - ((1 / 2 : Nat) : Int))).toNat)
          then stampCell false "#FFA500" "#4169E1"
          else [emptyCell].getD (0 * 1 + 0) emptyCell :=
  stamp_characterization 1 false "#FFA500" "#4169E1" 1 (by decide) 0 0 [emptyCell]
    (by decide) 0 0 (by decide) (by decide)
